import Mathlib

/-!
# Verification of the cchess engine driver (`cchess/engine.py`)

A shallow embedding of the parts of the engine driver that the checked
claims are about: the score algebra, option parsing, the UCI `go` line
builder, the XBoard feature / game-result / thinking-output handling,
the case-insensitive option map, the command/pipelining discipline of
`Protocol.communicate`, and the streaming `AnalysisResult` handle.

Python machine-level conventions are made explicit: integers are
unbounded (`Int`), float arithmetic on clock values is modelled with
exact rationals (`ℚ`, the quantities involved are decimal and the claims
do not depend on binary rounding), `round` is round-half-to-even as in
Python, and fallible code returns `Except`.
-/

namespace CChess

/-- Python exceptions that the modelled fragments can raise. -/
inductive PyErr
  | engineError (msg : String)
  | valueError
  | typeError
  | assertionError
  | invalidStateError
  | indexError
  deriving DecidableEq, Repr

/-! ## Score algebra (`Score`, `Cp`, `Mate`, `MateGiven`)

Python classes `Cp(cp)`, `Mate(moves)` and the singleton `MateGiven`
become the three constructors of one inductive type. -/

/-- The closed sum of score values: `Cp(cp)`, `Mate(moves)`, `MateGiven`. -/
inductive Score
  | Cp (cp : Int)
  | Mate (moves : Int)
  | MateGiven
  deriving DecidableEq, Repr

namespace Score

/-- `Score.mate()`: `Cp.mate()` returns `None`, `Mate.mate()` returns
`self.moves`, `MateGivenType.mate()` returns `0`. -/
def mateVal : Score → Option Int
  | Cp _ => none
  | Mate m => some m
  | MateGiven => some 0

/-- `Score.score()` with the default `mate_score=None`: `Cp.score()`
returns `self.cp`; `Mate.score()` and `MateGivenType.score()` return
`None`. -/
def scoreVal : Score → Option Int
  | Cp n => some n
  | Mate _ => none
  | MateGiven => none

/-- `isinstance(self, MateGivenType)`. -/
def isMateGiven : Score → Bool
  | MateGiven => true
  | _ => false

/-- `Score._score_tuple()`:
`(isinstance(self, MateGivenType), mate is not None and mate > 0,
mate is None, -(mate or 0), self.score())`. -/
def scoreTuple (s : Score) : Bool × Bool × Bool × Int × Option Int :=
  let mate := s.mateVal
  ( s.isMateGiven,
    match mate with
    | none => false
    | some m => decide (0 < m),
    mate.isNone,
    -(mate.getD 0),
    s.scoreVal )

/-- Python `<` on the final `Optional[int]` component of a score tuple,
reached only when the first four components are equal. Comparing `None`
with an `int` raises `TypeError`, modelled as `none`. -/
def pyOptIntLt : Option Int → Option Int → Option Bool
  | none, none => some false
  | some a, some b => some (decide (a < b))
  | _, _ => none

/-- Python `<` on booleans (`False < True`, booleans being ints). -/
def pyBoolLt (a b : Bool) : Bool := !a && b

/-- Python lexicographic `<` on `Score._score_tuple()` values: scan for
the first component where the tuples differ and compare it; `none`
models a `TypeError` (never reached on actual score tuples). -/
def pyTupleLt (x y : Bool × Bool × Bool × Int × Option Int) : Option Bool :=
  if x.1 ≠ y.1 then some (pyBoolLt x.1 y.1)
  else if x.2.1 ≠ y.2.1 then some (pyBoolLt x.2.1 y.2.1)
  else if x.2.2.1 ≠ y.2.2.1 then some (pyBoolLt x.2.2.1 y.2.2.1)
  else if x.2.2.2.1 ≠ y.2.2.2.1 then some (decide (x.2.2.2.1 < y.2.2.2.1))
  else pyOptIntLt x.2.2.2.2 y.2.2.2.2

/-- `Score.__eq__`: equality of score tuples. -/
def scoreEq (a b : Score) : Bool := decide (scoreTuple a = scoreTuple b)

/-- `Score.__lt__`: `self._score_tuple() < other._score_tuple()`. -/
def scoreLt (a b : Score) : Option Bool := pyTupleLt (scoreTuple a) (scoreTuple b)

/-- `Score.__le__`: `self._score_tuple() <= other._score_tuple()`;
equal tuples compare `True`, otherwise as `<`. -/
def scoreLe (a b : Score) : Option Bool :=
  if scoreTuple a = scoreTuple b then some true else scoreLt a b

/-- `Cp.__neg__`, `Mate.__neg__` (`MateGiven if not self.moves else
Mate(-self.moves)`), `MateGivenType.__neg__` (`Mate(0)`). -/
def neg : Score → Score
  | Cp n => Cp (-n)
  | Mate m => if m = 0 then MateGiven else Mate (-m)
  | MateGiven => Mate 0

/-- `Cp.__abs__` (`Cp(abs(self.cp))`), `Mate.__abs__` (`MateGiven if not
self.moves else Mate(abs(self.moves))`), `MateGivenType.__abs__`
(`self`). -/
def absS : Score → Score
  | Cp n => Cp |n|
  | Mate m => if m = 0 then MateGiven else Mate |m|
  | MateGiven => MateGiven

/-- Rank interpretation of a score used to reason about the tuple
order: non-positive mates, then centipawns, then positive mates, then
`MateGiven`; the secondary key is `-moves` (resp. `cp`). -/
def toKey : Score → Int × Int
  | Cp n => (1, n)
  | Mate m => if m ≤ 0 then (0, -m) else (2, -m)
  | MateGiven => (3, 0)

/-- Lexicographic order on rank keys. -/
def keyLt (a b : Int × Int) : Prop := a.1 < b.1 ∨ (a.1 = b.1 ∧ a.2 < b.2)

instance (a b : Int × Int) : Decidable (keyLt a b) := by
  unfold keyLt; infer_instance

theorem scoreLt_eq_keyLt (x y : Score) :
    scoreLt x y = some (decide (keyLt (toKey x) (toKey y))) := by
  cases x <;> cases y
  case Mate.Mate =>
    rename_i m m'
    have h : ∀ a : Int, decide (0 < a) = if a ≤ 0 then false else true := by
      intro a; split <;> simp <;> omega
    simp only [scoreLt, scoreTuple, mateVal, scoreVal, isMateGiven, Option.getD,
      Option.isNone, pyTupleLt, pyOptIntLt, pyBoolLt, toKey, keyLt,
      Option.some.injEq, h]
    rcases le_or_lt m 0 with hm | hm <;> rcases le_or_lt m' 0 with hm' | hm' <;>
      simp [hm, hm', hm.not_lt, not_le.mpr, decide_eq_decide] <;> omega
  all_goals
    simp only [scoreLt, scoreTuple, mateVal, scoreVal, isMateGiven, Option.getD,
      Option.isNone, pyTupleLt, pyOptIntLt, pyBoolLt, toKey, keyLt,
      Option.some.injEq]
  all_goals repeat' split
  all_goals simp_all [decide_eq_decide]

theorem scoreTuple_inj (x y : Score) (h : scoreTuple x = scoreTuple y) : x = y := by
  cases x <;> cases y <;>
    simp_all [scoreTuple, mateVal, scoreVal, isMateGiven, Option.getD]

theorem scoreLe_eq_keyLe (x y : Score) :
    scoreLe x y = some (decide (x = y ∨ keyLt (toKey x) (toKey y))) := by
  unfold scoreLe
  split
  · rename_i h
    have hxy := scoreTuple_inj x y h
    subst hxy
    simp
  · rename_i h
    rw [scoreLt_eq_keyLt]
    have hne : x ≠ y := fun he => h (he ▸ rfl)
    simp [hne]

theorem keyLt_asymm (a b : Int × Int) : keyLt a b → keyLt b a → False := by
  obtain ⟨a1, a2⟩ := a; obtain ⟨b1, b2⟩ := b
  simp only [keyLt]; omega

theorem keyLt_trans (a b c : Int × Int) : keyLt a b → keyLt b c → keyLt a c := by
  obtain ⟨a1, a2⟩ := a; obtain ⟨b1, b2⟩ := b; obtain ⟨c1, c2⟩ := c
  simp only [keyLt]; omega

theorem keyLt_total (a b : Int × Int) : a = b ∨ keyLt a b ∨ keyLt b a := by
  obtain ⟨a1, a2⟩ := a; obtain ⟨b1, b2⟩ := b
  simp only [keyLt, Prod.mk.injEq]; omega

theorem toKey_inj (x y : Score) (h : toKey x = toKey y) : x = y := by
  cases x <;> cases y <;>
    simp only [toKey] at h <;>
    first
      | rfl
      | (exfalso; revert h; (try split) <;> (try split) <;>
          simp only [Prod.mk.injEq] <;> omega)
      | (revert h; (try split) <;> (try split) <;>
          simp only [Prod.mk.injEq, Score.Mate.injEq, Score.Cp.injEq] <;> omega)

end Score

open Score in
/-- C2: for every `Score` `x`: `-(-x) = x`; `abs(x) >= Cp(0)` in the score
order; the comparison order is antisymmetric, transitive and total (so in
particular it never raises a `TypeError`); `Mate(0) < MateGiven` and
`MateGiven` is the maximum; and negation satisfies `-Cp(n) = Cp(-n)`,
`-Mate(k) = Mate(-k)` for `k ≠ 0`, `-Mate(0) = MateGiven`, and
`-MateGiven = Mate(0)`. -/
theorem C2_score_algebra :
    (∀ x : Score, x.neg.neg = x) ∧
    (∀ x : Score, scoreLe (.Cp 0) x.absS = some true) ∧
    (∀ x y : Score, scoreLe x y = some true → scoreLe y x = some true → x = y) ∧
    (∀ x y z : Score, scoreLt x y = some true → scoreLt y z = some true →
        scoreLt x z = some true) ∧
    (∀ x y : Score, scoreLe x y = some true ∨ scoreLe y x = some true) ∧
    scoreLt (.Mate 0) .MateGiven = some true ∧
    (∀ x : Score, scoreLe x .MateGiven = some true) ∧
    (∀ n : Int, (Score.Cp n).neg = .Cp (-n)) ∧
    (∀ k : Int, k ≠ 0 → (Score.Mate k).neg = .Mate (-k)) ∧
    (Score.Mate 0).neg = .MateGiven ∧
    Score.MateGiven.neg = .Mate 0 := by
  refine ⟨?_, ?_, ?_, ?_, ?_, by decide, ?_, fun n => rfl, ?_, rfl, rfl⟩
  · intro x
    cases x with
    | Cp n => simp [neg]
    | Mate m =>
        by_cases h : m = 0 <;> simp [neg, h]
    | MateGiven => rfl
  · intro x
    rw [scoreLe_eq_keyLe]
    cases x with
    | Cp n =>
        by_cases h : n = 0
        · simp [h, absS]
        · have hpos : 0 < |n| := abs_pos.mpr h
          simp [absS, toKey, keyLt, hpos]
    | Mate m =>
        by_cases h : m = 0
        · simp [absS, h, toKey, keyLt]
        · have hpos : 0 < |m| := abs_pos.mpr h
          simp [absS, h, toKey, keyLt, not_le.mpr hpos]
    | MateGiven => simp [absS, toKey, keyLt]
  · intro x y hxy hyx
    rw [scoreLe_eq_keyLe] at hxy hyx
    simp only [Option.some.injEq, decide_eq_true_eq] at hxy hyx
    rcases hxy with h | h
    · exact h
    rcases hyx with h' | h'
    · exact h'.symm
    exact absurd h' (fun h'' => keyLt_asymm _ _ h h'')
  · intro x y z hxy hyz
    rw [scoreLt_eq_keyLt] at hxy hyz ⊢
    simp only [Option.some.injEq, decide_eq_true_eq] at hxy hyz ⊢
    exact keyLt_trans _ _ _ hxy hyz
  · intro x y
    rcases keyLt_total (toKey x) (toKey y) with h | h | h
    · left
      rw [scoreLe_eq_keyLe]
      simp [toKey_inj x y h]
    · left
      rw [scoreLe_eq_keyLe]
      simp [h]
    · right
      rw [scoreLe_eq_keyLe]
      simp [h]
  · intro x
    rw [scoreLe_eq_keyLe]
    cases x with
    | Cp n => simp [toKey, keyLt]
    | Mate m =>
        simp only [toKey, keyLt, Option.some.injEq, decide_eq_true_eq]
        right
        split <;> (left; simp)
    | MateGiven => simp
  · intro k hk
    simp [neg, hk]

open Score in
/-- Witness for C2: the hypothesis-bearing conjuncts applied at concrete
scores. -/
theorem C2_score_algebra_witness :
    Score.Mate 5 = Score.Mate 5 ∧
    scoreLt (.Mate 0) (.Cp 0) = some true ∧
    (Score.Mate 5).neg = .Mate (-5) := by
  refine ⟨?_, ?_, ?_⟩
  · exact C2_score_algebra.2.2.1 (.Mate 5) (.Mate 5) (by decide) (by decide)
  · exact C2_score_algebra.2.2.2.1 (.Mate 0) (.Mate (-1)) (.Cp 0)
      (by decide) (by decide)
  · exact C2_score_algebra.2.2.2.2.2.2.2.2.1 5 (by decide)

/-! ## Python value model

`ConfigValue = Union[str, int, bool, None]` and the pieces of Python
semantics the embedded code relies on: truthiness, `int(...)`,
`str(...)`, `str.lower()` (the identifiers involved are ASCII, so
per-character lowering is exact) and whitespace splitting. -/

/-- `ConfigValue`. -/
inductive PyValue
  | str (s : String)
  | int (n : Int)
  | bool (b : Bool)
  | none
  deriving DecidableEq, Repr

/-- Python truthiness of a `ConfigValue`. -/
def pyTruthy : PyValue → Bool
  | .str s => s ≠ ""
  | .int n => n ≠ 0
  | .bool b => b
  | .none => false

/-- Decimal value of a nonempty all-digit character run, else `none`. -/
def digitsVal (cs : List Char) : Option Nat :=
  if cs ≠ [] ∧ cs.all Char.isDigit then
    some (cs.foldl (fun a c => 10 * a + (c.toNat - 48)) 0)
  else
    Option.none

/-- CPython `int(s)` on a string: surrounding whitespace, an optional
sign and a nonempty digit run (underscore digit separators and non-ASCII
digits are not modelled; no such inputs occur on the wire). -/
def pyParseIntString (s : String) : Option Int :=
  let cs := s.toList.dropWhile Char.isWhitespace
  let cs := (cs.reverse.dropWhile Char.isWhitespace).reverse
  match cs with
  | '+' :: rest => (digitsVal rest).map Int.ofNat
  | '-' :: rest => (digitsVal rest).map (fun n => -(n : Int))
  | rest => (digitsVal rest).map Int.ofNat

/-- Python `int(value)` on a `ConfigValue`: ints pass through, bools
coerce to `0`/`1`, strings parse or raise `ValueError`, `None` raises
`TypeError`. -/
def pyInt : PyValue → Except PyErr Int
  | .int n => .ok n
  | .bool b => .ok (if b then 1 else 0)
  | .str s =>
      match pyParseIntString s with
      | some n => .ok n
      | Option.none => .error .valueError
  | .none => .error .typeError

/-- Python `str(value)` on a `ConfigValue`. -/
def pyStr : PyValue → String
  | .str s => s
  | .int n => toString n
  | .bool b => if b then "True" else "False"
  | .none => "None"

/-- Python `str.lower()` (exact for the ASCII names involved). -/
def pyLower (s : String) : String := String.mk (s.toList.map Char.toLower)

/-! ## Option model (`Option`, `MANAGED_OPTIONS`) -/

/-- `MANAGED_OPTIONS = ["uci_cchess960", "uci_variant", "multipv", "ponder"]`
(note the doubled `c`: the library consistently names the option
`UCI_cchess960`). -/
def MANAGED_OPTIONS : List String := ["uci_cchess960", "uci_variant", "multipv", "ponder"]

/-- The `Option` dataclass: `(name, type, default, min, max, var)`. -/
structure EngineOption where
  name : String
  type : String
  default : PyValue
  min : Option Int
  max : Option Int
  var : Option (List String)
  deriving DecidableEq, Repr

namespace EngineOption

/-- `Option.is_managed()`: `self.name.lower() in MANAGED_OPTIONS`. -/
def is_managed (o : EngineOption) : Bool := pyLower o.name ∈ MANAGED_OPTIONS

/-- The two range checks of `Option.parse` for a spin option, in source
order (`min` first, then `max`), followed by returning the integer. -/
def spinRange (mn mx : Option Int) (n : Int) : Except PyErr PyValue :=
  if mn.elim false (fun lo => decide (n < lo)) then
    .error (.engineError "expected value for option to be at least min")
  else if mx.elim false (fun hi => decide (hi < n)) then
    .error (.engineError "expected value for option to be at most max")
  else
    .ok (.int n)

/-- `Option.parse(value)`. Error messages are abbreviated (the code
interpolates the offending name and value into them). -/
def parse (o : EngineOption) (value : PyValue) : Except PyErr PyValue :=
  if o.type = "check" then
    .ok (if pyTruthy value then .bool (decide (value ≠ .str "false")) else value)
  else if o.type = "spin" then
    match pyInt value with
    | .error .valueError => .error (.engineError "expected integer for spin option")
    | .error e => .error e
    | .ok n => spinRange o.min o.max n
  else if o.type = "combo" then
    let v := pyStr value
    if v ∈ o.var.getD [] then .ok (.str v)
    else .error (.engineError "invalid value for combo option")
  else if o.type = "button" ∨ o.type = "reset" ∨ o.type = "save" then
    .ok .none
  else if o.type = "string" ∨ o.type = "file" ∨ o.type = "path" then
    let v := pyStr value
    if v.contains '\n' ∨ v.contains '\r' then
      .error (.engineError "invalid line-break in string option")
    else .ok (.str v)
  else
    .error (.engineError "unknown option type")

end EngineOption

/-- C5 (counterexample): the claim's managed set is spelled
`uci_chess960`, but the code's `MANAGED_OPTIONS` contains
`uci_cchess960`; an option named `UCI_Chess960` lowercases into the
claim's set yet `is_managed()` returns `False`. -/
theorem C5_is_managed_counterexample :
    pyLower "UCI_Chess960" ∈ ["uci_chess960", "uci_variant", "multipv", "ponder"] ∧
    EngineOption.is_managed
      ⟨"UCI_Chess960", "check", .bool false, Option.none, Option.none, Option.none⟩
      = false := by
  decide

/-- C5 (amended): `is_managed()` returns true iff the option's name,
lowercased, is one of `uci_cchess960`, `uci_variant`, `multipv`,
`ponder`. -/
theorem C5_is_managed_amended (o : EngineOption) :
    o.is_managed = true ↔
      (pyLower o.name = "uci_cchess960" ∨ pyLower o.name = "uci_variant" ∨
        pyLower o.name = "multipv" ∨ pyLower o.name = "ponder") := by
  simp [EngineOption.is_managed, MANAGED_OPTIONS]

theorem pyStr_str (s : String) : pyStr (.str s) = s := rfl

theorem spinRange_ok {mn mx : Option Int} {n : Int} {w : PyValue}
    (h : EngineOption.spinRange mn mx n = .ok w) : w = .int n := by
  unfold EngineOption.spinRange at h
  split at h
  · cases h
  · split at h
    · cases h
    · cases h; rfl

/-- C9: `Option.parse` is idempotent on its own successful outputs, and
a spin option rejects integers strictly below its declared `min` or
strictly above its declared `max`. -/
theorem C9_parse_idempotent_and_spin_range :
    (∀ (o : EngineOption) (v w : PyValue), o.parse v = .ok w → o.parse w = .ok w) ∧
    (∀ (o : EngineOption) (n : Int), o.type = "spin" →
      ((∃ lo, o.min = some lo ∧ n < lo) ∨ (∃ hi, o.max = some hi ∧ hi < n)) →
      ∃ msg, o.parse (.int n) = .error (.engineError msg)) := by
  constructor
  · intro o v w h
    unfold EngineOption.parse at h ⊢
    by_cases h1 : o.type = "check"
    · simp only [if_pos h1, Except.ok.injEq] at h
      subst h
      by_cases htr : pyTruthy v = true
      · simp only [htr, if_true]
        by_cases hv : v = .str "false"
        · simp [h1, hv, pyTruthy]
        · simp [h1, hv, pyTruthy]
      · simp only [Bool.not_eq_true] at htr
        simp [h1, htr]
    · simp only [if_neg h1] at h ⊢
      by_cases h2 : o.type = "spin"
      · simp only [if_pos h2] at h ⊢
        cases hv : pyInt v with
        | error e => rw [hv] at h; cases e <;> simp at h
        | ok n =>
            rw [hv] at h
            simp only at h
            have hw := spinRange_ok h
            subst hw
            simpa [pyInt] using h
      · simp only [if_neg h2] at h ⊢
        by_cases h3 : o.type = "combo"
        · simp only [if_pos h3] at h ⊢
          split at h
          · rename_i hmem
            cases h
            simp only [pyStr_str]
            simp [hmem]
          · cases h
        · simp only [if_neg h3] at h ⊢
          by_cases h4 : o.type = "button" ∨ o.type = "reset" ∨ o.type = "save"
          · simp only [if_pos h4, Except.ok.injEq] at h
            subst h
            simp [h4]
          · simp only [if_neg h4] at h ⊢
            by_cases h5 : o.type = "string" ∨ o.type = "file" ∨ o.type = "path"
            · simp only [if_pos h5] at h ⊢
              split at h
              · cases h
              · rename_i hbr
                cases h
                simp [pyStr] at hbr ⊢
                simp [hbr]
            · simp only [if_neg h5] at h
              cases h
  · intro o n htype hrange
    unfold EngineOption.parse
    have h1 : ¬ o.type = "check" := by rw [htype]; decide
    simp only [if_neg h1, if_pos htype]
    have : pyInt (.int n) = .ok n := rfl
    rw [this]
    simp only
    unfold EngineOption.spinRange
    rcases hrange with ⟨lo, hlo, hn⟩ | ⟨hi, hhi, hn⟩
    · refine ⟨"expected value for option to be at least min", ?_⟩
      rw [hlo]
      simp [hn]
    · rw [hhi]
      by_cases hmin : (o.min.elim false (fun lo => decide (n < lo))) = true
      · exact ⟨"expected value for option to be at least min", by simp [hmin]⟩
      · refine ⟨"expected value for option to be at most max", ?_⟩
        simp only [Bool.not_eq_true] at hmin
        simp [hmin, hn]

/-- Witness for C9 at a concrete option: a spin option `1..9` parses the
string `"3"` to the integer `3`, idempotently, and rejects `0`. -/
theorem C9_parse_witness :
    (EngineOption.parse ⟨"Hash", "spin", .int 3, some 1, some 9, Option.none⟩ (.int 3) =
      .ok (.int 3)) ∧
    ∃ msg, EngineOption.parse ⟨"Hash", "spin", .int 3, some 1, some 9, Option.none⟩ (.int 0) =
      .error (.engineError msg) := by
  constructor
  · exact C9_parse_idempotent_and_spin_range.1
      ⟨"Hash", "spin", .int 3, some 1, some 9, Option.none⟩ (.str "3") (.int 3) rfl
  · exact C9_parse_idempotent_and_spin_range.2
      ⟨"Hash", "spin", .int 3, some 1, some 9, Option.none⟩ 0 rfl
      (Or.inl ⟨1, rfl, by decide⟩)

/-! ## Command framework and `Protocol.communicate` pre-emption

`CommandState`, the `Result`/`Finished` pair of `asyncio.Future`s of a
`BaseCommand`, `set_finished`, and the pre-emption block of
`Protocol.communicate` that runs when a pending `next` command already
exists. -/

/-- `CommandState`. -/
inductive CommandState
  | new
  | active
  | cancelling
  | done
  deriving DecidableEq, Repr

/-- The observable state of an `asyncio.Future`. -/
inductive FutState
  | pending
  | cancelled
  | resolved
  | failed
  deriving DecidableEq, Repr

/-- `Future.done()`: true in every state but pending. -/
def FutState.isDone : FutState → Bool
  | .pending => false
  | _ => true

/-- `Future.cancel()`: a pending future becomes cancelled; a settled
future is unchanged. -/
def FutState.cancel : FutState → FutState
  | .pending => .cancelled
  | s => s

/-- `Future.set_result(..)` / `set_exception(..)`: raises
`InvalidStateError` unless the future is pending. -/
def FutState.settle (s : FutState) (outcome : FutState) : Except PyErr FutState :=
  if s.isDone then .error .invalidStateError else .ok outcome

/-- The per-command state of a `BaseCommand`: its lifecycle state and
its `result` and `finished` futures. -/
structure Cmd where
  state : CommandState
  result : FutState
  finished : FutState
  deriving DecidableEq, Repr

/-- `BaseCommand.set_finished()`: asserts the command is ACTIVE or
CANCELLING, fails a still-pending `result` with an `EngineError`, moves
to DONE and resolves `finished` with `set_result(None)`. -/
def setFinished (c : Cmd) : Except PyErr Cmd := do
  if ¬(c.state = .active ∨ c.state = .cancelling) then
    .error .assertionError
  else
    let c ←
      if ¬c.result.isDone then
        (do
          let r ← c.result.settle .failed
          pure { c with result := r })
      else
        pure c
    let c := { c with state := CommandState.done }
    let f ← c.finished.settle .resolved
    pure { c with finished := f }

/-- The pre-emption block of `Protocol.communicate` executed when
`self.next_command is not None`:
`next_command.result.cancel(); next_command.finished.cancel();
next_command.set_finished()`. -/
def preemptPending (next : Cmd) : Except PyErr Cmd :=
  setFinished { next with result := next.result.cancel,
                          finished := next.finished.cancel }

/-- A command sitting in the `next_command` slot has never been started:
it was constructed in state NEW by `communicate` and only
`previous_command_finished` (which empties the slot) moves it to
ACTIVE. -/
def isPendingSlotCmd (c : Cmd) : Prop := c.state = .new

/-- C1 (the code contradicts the claim): pre-empting a pending `next`
command always raises. The pending command is in state NEW, so the
`assert self.state in [CommandState.ACTIVE, CommandState.CANCELLING]`
in `set_finished` fails — and even with assertions stripped,
`finished.set_result(None)` after `finished.cancel()` would raise
`InvalidStateError`. The claimed error-free pre-emption and replacement
never happens. -/
theorem C1_preempt_pending_raises (next : Cmd) (h : isPendingSlotCmd next) :
    preemptPending next = .error .assertionError ∧
    (FutState.settle (FutState.cancel next.finished) .resolved =
      .error .invalidStateError) := by
  constructor
  · unfold preemptPending setFinished
    rw [h]
    simp
  · cases hf : next.finished <;> simp [FutState.cancel, FutState.settle, FutState.isDone]

/-- Witness for C1: the concrete pending command created by
`communicate` (state NEW, both futures pending). -/
theorem C1_preempt_pending_raises_witness :
    preemptPending ⟨.new, .pending, .pending⟩ = .error .assertionError := by
  exact (C1_preempt_pending_raises ⟨.new, .pending, .pending⟩ rfl).1

/-! ## `UciOptionMap`

`_store : Dict[str, Tuple[str, T]]` maps the lowercased key to the pair
(original-cased key, value), in insertion order (Python dicts preserve
insertion order; updating an existing key keeps its position). The store
is modelled as an ordered list of `(lowered key, cased key, value)`
triples. -/

section OptionMap

variable {T : Type}

/-- `self._store[lk] = (ck, v)`: update in place if `lk` is present,
else append. -/
def storeSet : List (String × String × T) → String → String → T → List (String × String × T)
  | [], lk, ck, v => [(lk, ck, v)]
  | e :: rest, lk, ck, v =>
      if e.1 = lk then (lk, ck, v) :: rest else e :: storeSet rest lk ck v

/-- `self._store[lk]` as an optional lookup. -/
def storeGet : List (String × String × T) → String → Option (String × T)
  | [], _ => Option.none
  | e :: rest, lk => if e.1 = lk then some e.2 else storeGet rest lk

/-- `del self._store[lk]`: `none` models the `KeyError` on a missing
key. -/
def storeDel : List (String × String × T) → String → Option (List (String × String × T))
  | [], _ => Option.none
  | e :: rest, lk =>
      if e.1 = lk then some rest else (storeDel rest lk).map (e :: ·)

/-- `UciOptionMap.__setitem__`: `self._store[key.lower()] = (key, value)`. -/
def mapSetItem (m : List (String × String × T)) (key : String) (value : T) :
    List (String × String × T) :=
  storeSet m (pyLower key) key value

/-- `UciOptionMap.__getitem__`: `self._store[key.lower()][1]`. -/
def mapGetItem (m : List (String × String × T)) (key : String) : Option T :=
  (storeGet m (pyLower key)).map (·.2)

/-- `key in map` (via `MutableMapping.__contains__`, which calls
`__getitem__`). -/
def mapContains (m : List (String × String × T)) (key : String) : Bool :=
  (storeGet m (pyLower key)).isSome

/-- `UciOptionMap.__delitem__`: `del self._store[key.lower()]`. -/
def mapDelItem (m : List (String × String × T)) (key : String) :
    Option (List (String × String × T)) :=
  storeDel m (pyLower key)

/-- `UciOptionMap.__iter__`: the stored original-cased keys in order. -/
def mapIterKeys (m : List (String × String × T)) : List String :=
  m.map (·.2.1)

/-- `self.items()`: pairs (cased key, value) in store order (equals
iterating `__iter__` and looking each key up, since each stored cased
key lowercases to its store key). -/
def mapItems (m : List (String × String × T)) : List (String × T) :=
  m.map (·.2)

/-- `UciOptionMap.__eq__`: every item of each map must be present in the
other (case-insensitively) with an equal value. -/
def mapPyEq [DecidableEq T] (a b : List (String × String × T)) : Bool :=
  (mapItems a).all (fun kv =>
    match mapGetItem b kv.1 with
    | some w => decide (w = kv.2)
    | Option.none => false) &&
  (mapItems b).all (fun kv =>
    match mapGetItem a kv.1 with
    | some w => decide (w = kv.2)
    | Option.none => false)

/-- Well-formedness invariant of `_store`, automatic from construction:
each store key is the lowercase of its cased key, and store keys are
unique (they are dict keys). -/
def mapWF (m : List (String × String × T)) : Prop :=
  (∀ e ∈ m, e.1 = pyLower e.2.1) ∧ (m.map (·.1)).Nodup

theorem storeGet_storeSet (m : List (String × String × T)) (lk ck : String) (v : T)
    (lk' : String) :
    storeGet (storeSet m lk ck v) lk' =
      if lk' = lk then some (ck, v) else storeGet m lk' := by
  induction m with
  | nil =>
      simp only [storeSet, storeGet]
      by_cases h : lk' = lk
      · simp [h]
      · have h' : ¬ lk = lk' := fun hh => h hh.symm
        simp [h, h']
  | cons e rest ih =>
      simp only [storeSet]
      by_cases he : e.1 = lk
      · simp only [if_pos he, storeGet]
        by_cases h : lk' = lk
        · simp [h]
        · have h' : ¬ lk = lk' := fun hh => h hh.symm
          simp [h, h', he, storeGet]
      · simp only [if_neg he, storeGet]
        by_cases hel : e.1 = lk'
        · have h : ¬ lk' = lk := fun hh => he (hel.trans hh)
          simp [hel, h]
        · simp [hel, ih]

theorem storeSet_mem_or (m : List (String × String × T)) (lk ck : String) (v : T) :
    ∀ e ∈ storeSet m lk ck v, e = (lk, ck, v) ∨ e ∈ m := by
  induction m with
  | nil => simp [storeSet]
  | cons f rest ih =>
      intro e he
      simp only [storeSet] at he
      by_cases hf : f.1 = lk
      · rw [if_pos hf] at he
        rcases List.mem_cons.mp he with h | h
        · exact Or.inl h
        · exact Or.inr (List.mem_cons_of_mem f h)
      · rw [if_neg hf] at he
        rcases List.mem_cons.mp he with h | h
        · exact Or.inr (h ▸ List.mem_cons_self f rest)
        · rcases ih e h with h' | h'
          · exact Or.inl h'
          · exact Or.inr (List.mem_cons_of_mem f h')

theorem storeSet_self_mem (m : List (String × String × T)) (lk ck : String) (v : T) :
    (lk, ck, v) ∈ storeSet m lk ck v := by
  induction m with
  | nil => simp [storeSet]
  | cons f rest ih =>
      simp only [storeSet]
      by_cases hf : f.1 = lk
      · simp [hf]
      · simp [hf, ih]

theorem storeSet_keys (m : List (String × String × T)) (lk ck : String) (v : T) :
    (storeSet m lk ck v).map (·.1) =
      if lk ∈ m.map (·.1) then m.map (·.1) else m.map (·.1) ++ [lk] := by
  induction m with
  | nil => simp [storeSet]
  | cons f rest ih =>
      simp only [storeSet]
      by_cases hf : f.1 = lk
      · simp [hf]
      · have h' : ¬ lk = f.1 := fun hh => hf hh.symm
        by_cases hm : lk ∈ rest.map (·.1) <;>
          simp [hf, h', hm, ih]

theorem storeSet_unique_key (m : List (String × String × T)) (lk ck : String) (v : T)
    (hnd : (m.map (·.1)).Nodup) :
    ∀ e ∈ storeSet m lk ck v, e.1 = lk → e = (lk, ck, v) := by
  induction m with
  | nil =>
      intro e he hk
      simpa [storeSet] using he
  | cons f rest ih =>
      simp only [List.map_cons, List.nodup_cons] at hnd
      intro e he hk
      simp only [storeSet] at he
      by_cases hf : f.1 = lk
      · rw [if_pos hf] at he
        rcases List.mem_cons.mp he with h | h
        · exact h
        · exfalso
          have : e.1 ∈ rest.map (·.1) := List.mem_map.mpr ⟨e, h, rfl⟩
          rw [hk, ← hf] at this
          exact hnd.1 this
      · rw [if_neg hf] at he
        rcases List.mem_cons.mp he with h | h
        · exact absurd (h ▸ hk : f.1 = lk) hf
        · exact ih hnd.2 e h hk

theorem storeGet_of_mem (m : List (String × String × T))
    (hnd : (m.map (·.1)).Nodup) :
    ∀ e ∈ m, storeGet m e.1 = some e.2 := by
  induction m with
  | nil => simp
  | cons f rest ih =>
      simp only [List.map_cons, List.nodup_cons] at hnd
      intro e he
      rcases List.mem_cons.mp he with h | h
      · subst h
        simp [storeGet]
      · simp only [storeGet]
        by_cases hf : f.1 = e.1
        · exfalso
          have : e.1 ∈ rest.map (·.1) := List.mem_map.mpr ⟨e, h, rfl⟩
          rw [← hf] at this
          exact hnd.1 this
        · simp [hf, ih hnd.2 e h]

theorem mapWF_setItem (m : List (String × String × T)) (k : String) (v : T)
    (h : mapWF m) : mapWF (mapSetItem m k v) := by
  obtain ⟨hlow, hnd⟩ := h
  constructor
  · intro e he
    rcases storeSet_mem_or m (pyLower k) k v e he with h' | h'
    · rw [h']
    · exact hlow e h'
  · rw [mapSetItem, storeSet_keys]
    split
    · exact hnd
    · rename_i hmem
      refine List.Nodup.append hnd (List.nodup_singleton (pyLower k)) ?_
      intro a ha hb
      simp only [List.mem_singleton] at hb
      subst hb
      exact hmem ha

/-- C8: `UciOptionMap` lookup, membership and deletion are
case-insensitive in the key; after inserting `key`, iteration yields
exactly the casing `key` for that (case-insensitive) name; and two maps
whose (case-insensitive) lookups agree everywhere compare equal under
`__eq__`. -/
theorem C8_uci_option_map {T : Type} [DecidableEq T] :
    (∀ (m : List (String × String × T)) (k k' : String), pyLower k = pyLower k' →
        mapGetItem m k = mapGetItem m k' ∧ mapContains m k = mapContains m k' ∧
        mapDelItem m k = mapDelItem m k') ∧
    (∀ (m : List (String × String × T)) (k : String) (v : T), mapWF m →
        mapWF (mapSetItem m k v) ∧
        mapGetItem (mapSetItem m k v) k = some v ∧
        k ∈ mapIterKeys (mapSetItem m k v) ∧
        (∀ k' ∈ mapIterKeys (mapSetItem m k v), pyLower k' = pyLower k → k' = k)) ∧
    (∀ m1 m2 : List (String × String × T), mapWF m1 → mapWF m2 →
        (∀ k, mapGetItem m1 k = mapGetItem m2 k) → mapPyEq m1 m2 = true) := by
  refine ⟨?_, ?_, ?_⟩
  · intro m k k' h
    exact ⟨by rw [mapGetItem, h, mapGetItem], by rw [mapContains, h, mapContains],
      by rw [mapDelItem, h, mapDelItem]⟩
  · intro m k v hwf
    refine ⟨mapWF_setItem m k v hwf, ?_, ?_, ?_⟩
    · rw [mapGetItem, mapSetItem, storeGet_storeSet]
      simp
    · exact List.mem_map.mpr ⟨(pyLower k, k, v), storeSet_self_mem m (pyLower k) k v, rfl⟩
    · intro k' hk' hlow
      rcases List.mem_map.mp hk' with ⟨e, he, hek⟩
      have hwf' := mapWF_setItem m k v hwf
      have he1 : e.1 = pyLower k := by
        rw [hwf'.1 e he, hek, hlow]
      have := storeSet_unique_key m (pyLower k) k v hwf.2 e he he1
      rw [← hek, this]
  · intro m1 m2 hwf1 hwf2 hag
    rw [mapPyEq, Bool.and_eq_true]
    constructor <;> rw [List.all_eq_true] <;> intro kv hkv <;>
      rcases List.mem_map.mp hkv with ⟨e, he, hekv⟩
    · have h1 : mapGetItem m1 e.2.1 = some e.2.2 := by
        rw [mapGetItem, ← hwf1.1 e he, storeGet_of_mem m1 hwf1.2 e he]
        rfl
      have h2 := (hag e.2.1).symm.trans h1
      subst hekv
      simp [h2]
    · have h2 : mapGetItem m2 e.2.1 = some e.2.2 := by
        rw [mapGetItem, ← hwf2.1 e he, storeGet_of_mem m2 hwf2.2 e he]
        rfl
      have h1 := (hag e.2.1).trans h2
      subst hekv
      simp [h1]

/-- Witness for C8: two singleton maps that bind `5` to the name `Hash`
under different casings compare equal, and lookup succeeds under a third
casing. -/
theorem C8_uci_option_map_witness :
    mapPyEq [("hash", "Hash", (5 : Nat))] [("hash", "HASH", 5)] = true ∧
    mapGetItem [("hash", "Hash", (5 : Nat))] "HaSh" = some 5 := by
  have hag : ∀ k, mapGetItem [("hash", "Hash", (5 : Nat))] k =
      mapGetItem [("hash", "HASH", 5)] k := by
    intro k
    simp only [mapGetItem, storeGet]
    by_cases h : ("hash" : String) = pyLower k <;> simp [h]
  constructor
  · exact C8_uci_option_map.2.2 _ _ (by constructor <;> decide)
      (by constructor <;> decide) hag
  · have := (C8_uci_option_map.1 [("hash", "Hash", (5 : Nat))] "HaSh" "Hash"
      (by decide)).1
    rw [this]
    decide

end OptionMap

/-! ## Streaming analysis handle (`AnalysisResult`)

`InfoDict`s are modelled as insertion-ordered association lists (the
values that matter to the handle are the `multipv` integer and
emptiness; other values are modelled as integers). The handle state is
its FIFO queue, the `_posted_kork`/`_seen_kork` flags and the `multipv`
aggregation slots. `set_finished`/`set_exception` reach the queue only
through `_kork`; `stop()` does not touch it. -/

/-- An `InfoDict`, as an insertion-ordered association list. -/
abbrev Info := List (String × Int)

/-- `d[k] = v` on a dict: update in place or append. -/
def assocSet {α : Type} : List (String × α) → String → α → List (String × α)
  | [], k, v => [(k, v)]
  | e :: r, k, v => if e.1 = k then (k, v) :: r else e :: assocSet r k v

/-- `d.update(upd)`: assign every pair of `upd` in order. -/
def dictUpdate (d upd : Info) : Info :=
  upd.foldl (fun acc kv => assocSet acc kv.1 kv.2) d

/-- `info.get(k, d)`. -/
def infoGetD (info : Info) (k : String) (d : Int) : Int :=
  match info.lookup k with
  | some v => v
  | Option.none => d

/-- `while len(self.multipv) < multipv: self.multipv.append({})`. -/
def extendTo (l : List Info) (mp : Int) : List Info :=
  l ++ List.replicate (mp.toNat - l.length) []

/-- `l[i].update(upd)` with Python index semantics (negative indices
count from the end; out of range raises `IndexError`). -/
def pyUpdateAt (l : List Info) (i : Int) (upd : Info) : Except PyErr (List Info) :=
  let idx : Int := if 0 ≤ i then i else l.length + i
  if 0 ≤ idx ∧ idx < l.length then
    .ok (l.set idx.toNat (dictUpdate (l.getD idx.toNat []) upd))
  else .error .indexError

/-- The state of an `AnalysisResult`: the `asyncio.Queue` contents, the
`_posted_kork` and `_seen_kork` flags and the `multipv` slots. -/
structure AState where
  queue : List Info
  postedKork : Bool
  seenKork : Bool
  multipv : List Info
  deriving DecidableEq, Repr

/-- The state built by `AnalysisResult.__init__`. -/
def AState.init : AState := ⟨[], false, false, [[]]⟩

/-- `AnalysisResult.post(info)`: an empty dict returns immediately;
otherwise the `multipv` slot list is extended and updated (a `some` in
the second component models an escaping `IndexError`, in which case the
queue is untouched because `put_nowait` is the last statement) and the
info is enqueued. -/
def post (s : AState) (info : Info) : AState × Option PyErr :=
  if info = [] then (s, Option.none)
  else
    let mp := infoGetD info "multipv" 1
    let slots := extendTo s.multipv mp
    match pyUpdateAt slots (mp - 1) info with
    | .error e => ({ s with multipv := slots }, some e)
    | .ok slots' =>
        ({ s with multipv := slots', queue := s.queue ++ [info] }, Option.none)

/-- `AnalysisResult._kork()`: enqueue the empty dict once. -/
def kork (s : AState) : AState :=
  if s.postedKork then s
  else { s with postedKork := true, queue := s.queue ++ [[]] }

/-- Outcome of one `AnalysisResult.get()` call. -/
inductive GetOutcome
  | raised
  | blocked
  | yielded (info : Info)
  deriving DecidableEq, Repr

/-- `AnalysisResult.get()`: raise `AnalysisComplete` once the kork has
been seen; block on an empty queue; dequeue, marking `_seen_kork` and
raising on the kork, else yield the info. -/
def getStep (s : AState) : GetOutcome × AState :=
  if s.seenKork then (.raised, s)
  else
    match s.queue with
    | [] => (.blocked, s)
    | info :: rest =>
        if info = [] then (.raised, { s with seenKork := true, queue := rest })
        else (.yielded info, { s with queue := rest })

/-- Reachable handle states: every interleaving of `post`, `_kork` (the
only queue access of `set_finished`/`set_exception`) and `get`. -/
inductive AReach : AState → Prop
  | init : AReach AState.init
  | post (s : AState) (info : Info) : AReach s → AReach (post s info).1
  | kork (s : AState) : AReach s → AReach (kork s)
  | get (s : AState) : AReach s → AReach (getStep s).2

/-- The sentinel-tracking invariant of a handle. -/
def AInv (s : AState) : Prop :=
  s.queue.count [] ≤ 1 ∧
  (s.queue.count [] = 1 → s.postedKork = true) ∧
  (s.seenKork = true → s.postedKork = true ∧ s.queue.count [] = 0)

theorem AInv_post (s : AState) (info : Info) (h : AInv s) : AInv (post s info).1 := by
  obtain ⟨h1, h2, h3⟩ := h
  unfold post
  by_cases he : info = []
  · simpa [he] using ⟨h1, h2, h3⟩
  · simp only [if_neg he]
    cases hup : pyUpdateAt (extendTo s.multipv (infoGetD info "multipv" 1))
        (infoGetD info "multipv" 1 - 1) info with
    | error e => exact ⟨h1, h2, h3⟩
    | ok slots' =>
        have hc : List.count ([] : Info) (s.queue ++ [info]) =
            List.count ([] : Info) s.queue := by
          simp [List.count_append, List.count_cons, he]
        exact ⟨by simpa [hc] using h1, by simpa [hc] using h2, by simpa [hc] using h3⟩

theorem AInv_kork (s : AState) (h : AInv s) : AInv (kork s) := by
  obtain ⟨h1, h2, h3⟩ := h
  unfold kork
  by_cases hp : s.postedKork = true
  · simpa [hp] using ⟨h1, h2, h3⟩
  · simp only [Bool.not_eq_true] at hp
    have hc : s.queue.count [] = 0 := by
      rcases Nat.lt_or_ge (s.queue.count []) 1 with h | h
      · omega
      · exact absurd (h2 (by omega)) (by simp [hp])
    have hs : s.seenKork = false := by
      cases hsk : s.seenKork
      · rfl
      · exact absurd (h3 hsk).1 (by simp [hp])
    refine ⟨?_, ?_, ?_⟩ <;> simp [hp, hc, hs, List.count_append]

theorem AInv_get (s : AState) (h : AInv s) : AInv (getStep s).2 := by
  obtain ⟨h1, h2, h3⟩ := h
  unfold getStep
  by_cases hsk : s.seenKork = true
  · simpa [hsk] using ⟨h1, h2, h3⟩
  · simp only [Bool.not_eq_true] at hsk
    rw [if_neg (by simp [hsk])]
    split
    · exact ⟨h1, h2, h3⟩
    · rename_i info rest hq
      split
      · rename_i he
        subst he
        have hcount : List.count ([] : Info) rest = 0 := by
          rw [hq] at h1
          simp [List.count_cons] at h1
          omega
        have hp : s.postedKork = true := by
          apply h2
          rw [hq]
          simp [List.count_cons, hcount]
        simp [AInv, hcount, hp]
      · rename_i he
        have hc : List.count ([] : Info) (info :: rest) =
            List.count ([] : Info) rest := by
          simp [List.count_cons, he]
        rw [hq, hc] at h1 h2
        exact ⟨h1, h2, fun h' => absurd h' (by simp [hsk])⟩

theorem AReach_inv (s : AState) (h : AReach s) : AInv s := by
  induction h with
  | init => exact ⟨by simp [AState.init], by simp [AState.init], by simp [AState.init]⟩
  | post s info _ ih => exact AInv_post s info ih
  | kork s _ ih => exact AInv_kork s ih
  | get s _ ih => exact AInv_get s ih

/-- C10: posting an empty `InfoDict` is a no-op (and raises nothing);
`get()` never yields an empty dict; in every reachable handle state the
sentinel occurs at most once in the queue (and `_kork` is idempotent);
and once the sentinel has been consumed (`_seen_kork`), every `get()`
raises `AnalysisComplete` and leaves the state unchanged. -/
theorem C10_analysis_result :
    (∀ s : AState, post s [] = (s, Option.none)) ∧
    (∀ (s s' : AState) (info : Info), getStep s = (.yielded info, s') → info ≠ []) ∧
    (∀ s : AState, s.postedKork = true → kork s = s) ∧
    (∀ s : AState, AReach s → s.queue.count [] ≤ 1) ∧
    (∀ s : AState, s.seenKork = true → getStep s = (.raised, s)) := by
  refine ⟨?_, ?_, ?_, ?_, ?_⟩
  · intro s
    simp [post]
  · intro s s' info h hinfo
    subst hinfo
    unfold getStep at h
    by_cases hsk : s.seenKork = true
    · simp [hsk] at h
    · simp only [Bool.not_eq_true] at hsk
      rw [if_neg (by simp [hsk])] at h
      cases hq : s.queue with
      | nil => rw [hq] at h; exact absurd h (by simp)
      | cons i rest =>
          rw [hq] at h
          by_cases he : i = [] <;> simp [he] at h
  · intro s hp
    simp [kork, hp]
  · intro s h
    exact (AReach_inv s h).1
  · intro s hsk
    simp [getStep, hsk]

/-- Witness for C10: a concrete reachable state — one real info posted,
the kork posted, both consumed — satisfies the sentinel bound, and the
hypothesis-bearing conjuncts applied there. -/
theorem C10_analysis_result_witness :
    (getStep (getStep (getStep (kork (post AState.init [("depth", 2)]).1)).2).2).1
      = .raised ∧
    (kork (kork (post AState.init [("depth", 2)]).1)).queue.count [] ≤ 1 := by
  constructor
  · have := C10_analysis_result.2.2.2.2
      (getStep (getStep (kork (post AState.init [("depth", 2)]).1)).2).2 (by decide)
    rw [this]
  · have hreach : AReach (kork (kork (post AState.init [("depth", 2)]).1)) :=
      AReach.kork _ (AReach.kork _ (AReach.post _ _ AReach.init))
    exact C10_analysis_result.2.2.2.1 _ hreach

/-! ## The UCI `go` line (`UciProtocol._go`)

`Limit` clock fields are seconds as Python floats, modelled as exact
rationals; `round` is Python's round-half-to-even. Moves are represented
by their UCI strings (the `Move` collaborator's `uci()`); `clock_id` is
not read by `_go` and is omitted. -/

/-- Python `round(q)` to an integer: round half to even. -/
def pyRound (q : ℚ) : Int :=
  let f := ⌊q⌋
  let r := q - f
  if r < 1/2 then f
  else if 1/2 < r then f + 1
  else if Even f then f else f + 1

/-- The fields of `Limit` that `_go` reads, in declaration order. -/
structure Limit where
  time : Option ℚ
  depth : Option Int
  nodes : Option Int
  mate : Option Int
  red_clock : Option ℚ
  black_clock : Option ℚ
  red_inc : Option ℚ
  black_inc : Option ℚ
  remaining_moves : Option Int
  deriving DecidableEq, Repr

/-- `UciProtocol._go(limit, root_moves=…, ponder=…, infinite=…)`: the
successive `builder.append` calls, one `let` per `if` block of the
source. -/
def uciGoTokens (limit : Limit) (ponder : Bool) (root_moves : Option (List String))
    (infinite : Bool) : List String :=
  let builder := ["go"]
  let builder := if ponder then builder ++ ["ponder"] else builder
  let builder := limit.red_clock.elim builder
    (fun q => builder ++ ["wtime", toString (max 1 (pyRound (q * 1000)))])
  let builder := limit.black_clock.elim builder
    (fun q => builder ++ ["btime", toString (max 1 (pyRound (q * 1000)))])
  let builder := limit.red_inc.elim builder
    (fun q => builder ++ ["winc", toString (pyRound (q * 1000))])
  let builder := limit.black_inc.elim builder
    (fun q => builder ++ ["binc", toString (pyRound (q * 1000))])
  let builder := limit.remaining_moves.elim builder
    (fun n => if 0 < n then builder ++ ["movestogo", toString n] else builder)
  let builder := limit.depth.elim builder
    (fun n => builder ++ ["depth", toString (max 1 n)])
  let builder := limit.nodes.elim builder
    (fun n => builder ++ ["nodes", toString (max 1 n)])
  let builder := limit.mate.elim builder
    (fun n => builder ++ ["mate", toString (max 1 n)])
  let builder := limit.time.elim builder
    (fun q => builder ++ ["movetime", toString (max 1 (pyRound (q * 1000)))])
  let builder := if infinite then builder ++ ["infinite"] else builder
  let builder := root_moves.elim builder
    (fun ms => builder ++ ["searchmoves"] ++ (if ms.isEmpty then ["0000"] else ms))
  builder

/-- `self.send_line(" ".join(builder))`. -/
def uciGoLine (limit : Limit) (ponder : Bool) (root_moves : Option (List String))
    (infinite : Bool) : String :=
  " ".intercalate (uciGoTokens limit ponder root_moves infinite)

theorem elim_append {α : Type} (o : Option α) (b : List String) (f : α → List String) :
    o.elim b (fun q => b ++ f q) = b ++ o.elim [] f := by
  cases o <;> simp

theorem if_append (c : Prop) [Decidable c] (b x : List String) :
    (if c then b ++ x else b) = b ++ (if c then x else []) := by
  split <;> simp

theorem elim_if_append (o : Option Int) (b : List String) (f : Int → List String) :
    o.elim b (fun n => if 0 < n then b ++ f n else b) =
      b ++ o.elim [] (fun n => if 0 < n then f n else []) := by
  cases o with
  | none => simp
  | some n =>
      simp only [Option.elim]
      split <;> simp

/-- C4 (counterexample): a `Limit` with `red_inc = 0` emits `winc 0` —
the increment is not clamped at a minimum of 1 as claimed (only
`wtime`, `btime` and `movetime` are). -/
theorem C4_go_counterexample :
    uciGoTokens
      ⟨Option.none, Option.none, Option.none, Option.none, Option.none,
        Option.none, some 0, Option.none, Option.none⟩ false Option.none false
      = ["go", "winc", "0"] ∧
    (["go", "winc", "0"] : List String) ≠ ["go", "winc", "1"] := by
  have h0 : pyRound (0 : ℚ) = 0 := by norm_num [pyRound]
  constructor
  · simp [uciGoTokens, h0]
    rfl
  · decide

/-- C4 (amended): the emitted `go` line contains exactly the segments
among `ponder wtime btime winc binc movestogo depth nodes mate movetime
infinite searchmoves` whose `Limit` fields apply; `wtime`, `btime` and
`movetime` are milliseconds clamped at a minimum of 1, while `winc` and
`binc` are milliseconds without the clamp, and `depth`, `nodes` and
`mate` are clamped at 1. -/
theorem C4_go_amended (limit : Limit) (ponder : Bool)
    (root_moves : Option (List String)) (infinite : Bool) :
    uciGoTokens limit ponder root_moves infinite =
      ["go"]
      ++ (if ponder then ["ponder"] else [])
      ++ limit.red_clock.elim [] (fun q => ["wtime", toString (max 1 (pyRound (q * 1000)))])
      ++ limit.black_clock.elim [] (fun q => ["btime", toString (max 1 (pyRound (q * 1000)))])
      ++ limit.red_inc.elim [] (fun q => ["winc", toString (pyRound (q * 1000))])
      ++ limit.black_inc.elim [] (fun q => ["binc", toString (pyRound (q * 1000))])
      ++ limit.remaining_moves.elim []
          (fun n => if 0 < n then ["movestogo", toString n] else [])
      ++ limit.depth.elim [] (fun n => ["depth", toString (max 1 n)])
      ++ limit.nodes.elim [] (fun n => ["nodes", toString (max 1 n)])
      ++ limit.mate.elim [] (fun n => ["mate", toString (max 1 n)])
      ++ limit.time.elim [] (fun q => ["movetime", toString (max 1 (pyRound (q * 1000)))])
      ++ (if infinite then ["infinite"] else [])
      ++ root_moves.elim []
          (fun ms => "searchmoves" :: (if ms.isEmpty then ["0000"] else ms)) := by
  cases root_moves <;>
    simp only [uciGoTokens, elim_append, if_append, elim_if_append] <;>
    simp [List.append_assoc]

/-! ## XBoard thinking output (`_parse_xboard_post`)

The `Board` collaborator is external: `root_board.copy(stack=False)` and
`board.push_xboard(token)` are modelled by a `push` oracle mapping the
tokens already pushed and the next token to the parsed move (`none`
models the `ValueError` for an illegal token). Moves are opaque and
represented by strings; `time` is seconds as an exact rational. -/

/-- Helper for `pySplitWS`: scan the characters, accumulating the
current (reversed) word. -/
def splitWSAux : List Char → List Char → List String
  | [], acc => if acc = [] then [] else [String.mk acc.reverse]
  | c :: cs, acc =>
      if c.isWhitespace then
        (if acc = [] then splitWSAux cs [] else String.mk acc.reverse :: splitWSAux cs [])
      else splitWSAux cs (c :: acc)

/-- Python `line.split()`: split on whitespace runs, dropping empty
pieces. -/
def pySplitWS (s : String) : List String := splitWSAux s.toList []

/-- The leading-integer-token loop: pop tokens while `int(token)`
succeeds; the first failing token is put back. -/
def splitLeadingInts : List String → List Int × List String
  | [] => ([], [])
  | t :: ts =>
      match pyParseIntString t with
      | some n =>
          let p := splitLeadingInts ts
          (n :: p.1, p.2)
      | Option.none => ([], t :: ts)

/-- `while len(integer_tokens) > 1: integer_tokens.pop(0)`. -/
def popWhileGT1 : List Int → List Int
  | [] => []
  | [x] => [x]
  | _ :: x :: xs => popWhileGT1 (x :: xs)

/-- The score mapping of `_parse_xboard_post`. -/
def xboardScoreOfCp (cp : Int) : Score :=
  if cp ≤ -100000 then .Mate (cp + 100000)
  else if cp = 100000 then .MateGiven
  else if cp ≥ 100000 then .Mate (cp - 100000)
  else .Cp cp

/-- `PovScore(relative, turn)` (`turn` is the side to move,
`True` = red). -/
structure PovScore where
  relative : Score
  turn : Bool
  deriving DecidableEq, Repr

/-- The `InfoDict` keys `_parse_xboard_post` can set; `none` = absent. -/
structure XInfo where
  depth : Option Int
  time : Option ℚ
  nodes : Option Int
  score : Option PovScore
  seldepth : Option Int
  nps : Option Int
  tbhits : Option Int
  pv : Option (List String)
  deriving DecidableEq, Repr

/-- The empty `InfoDict`. -/
def XInfo.empty : XInfo :=
  ⟨Option.none, Option.none, Option.none, Option.none, Option.none,
    Option.none, Option.none, Option.none⟩

/-- `token.rstrip(".")`. -/
def rstripDots (s : String) : String :=
  String.mk (s.toList.reverse.dropWhile (· = '.')).reverse

/-- `s.isdigit()` (ASCII digits; no non-ASCII digits occur on the
wire). -/
def pyIsDigit (s : String) : Bool :=
  !s.toList.isEmpty && s.toList.all Char.isDigit

/-- The principal-variation loop: skip move-number tokens, push each
move token onto the board shadow (stopping at the first `ValueError`),
and stop after one move unless PV info was selected. -/
def pvLoop (push : List String → String → Option String) (hasPV : Bool)
    (hist acc : List String) : List String → List String
  | [] => acc
  | t :: ts =>
      if pyIsDigit (rstripDots t) then pvLoop push hasPV hist acc ts
      else
        match push hist t with
        | Option.none => acc
        | some mv =>
            if hasPV then pvLoop push hasPV (hist ++ [t]) (acc ++ [mv]) ts
            else acc ++ [mv]

/-- The body of `_parse_xboard_post` after the leading integer tokens
have been split off: fewer than four integer tokens yield the empty
info, otherwise `depth score time nodes` are required, `seldepth`,
`nps` and (after dropping reserved tokens) `tbhits` are optional, and
the remaining tokens are parsed as the pv. -/
def parsePostInts (intToks : List Int) (pvToks : List String) (turn : Bool)
    (push : List String → String → Option String) (hasPV : Bool) : XInfo :=
  match intToks with
  | d :: cp :: t :: n :: rest =>
      let seldepth := rest.head?
      let rest := rest.tail
      let nps := rest.head?
      let rest := rest.tail
      let rest := popWhileGT1 rest
      let tbhits := rest.head?
      ⟨some d, some ((t : ℚ) / 100), some n, some ⟨xboardScoreOfCp cp, turn⟩,
        seldepth, nps, tbhits, some (pvLoop push hasPV [] [] pvToks)⟩
  | _ => XInfo.empty

/-- `_parse_xboard_post(line, root_board, selector)`. -/
def parseXboardPost (line : String) (turn : Bool)
    (push : List String → String → Option String) (hasPV : Bool) : XInfo :=
  let p := splitLeadingInts (pySplitWS line)
  parsePostInts p.1 p.2 turn push hasPV

theorem popWhileGT1_append_singleton (xs : List Int) (x : Int) :
    popWhileGT1 (xs ++ [x]) = [x] := by
  induction xs with
  | nil => rfl
  | cons a as ih =>
      cases as with
      | nil => simpa [popWhileGT1] using ih
      | cons b bs => simpa [popWhileGT1] using ih

/-- A stub legality oracle for the board collaborator in the concrete
scenario: from the root, `h2e2` is legal, then `h9g7`. -/
def demoPush : List String → String → Option String := fun hist t =>
  if hist = [] ∧ t = "h2e2" then some "h2e2"
  else if hist = ["h2e2"] ∧ t = "h9g7" then some "h9g7"
  else Option.none

/-- C3: the thinking-output parser follows the grammar
`depth score time(centis) nodes [seldepth [nps [reserved… tbhits]]] pv`,
maps the score integer as claimed, and parses the literal line
`10 -15 123 45678 7 365000 0 h2e2 h9g7` to depth 10, score
`PovScore(Cp(-15), turn)`, time 1.23, nodes 45678, seldepth 7,
nps 365000, tbhits 0, pv `[h2e2, h9g7]`. -/
theorem C3_xboard_post :
    (∀ cp : Int,
      (cp ≤ -100000 → xboardScoreOfCp cp = .Mate (cp + 100000)) ∧
      (cp = 100000 → xboardScoreOfCp cp = .MateGiven) ∧
      (100000 < cp → xboardScoreOfCp cp = .Mate (cp - 100000)) ∧
      (-100000 < cp → cp < 100000 → xboardScoreOfCp cp = .Cp cp)) ∧
    (∀ (d cp t n : Int) (pvToks : List String) (turn : Bool) push (hasPV : Bool),
      parsePostInts [d, cp, t, n] pvToks turn push hasPV =
        ⟨some d, some ((t : ℚ) / 100), some n, some ⟨xboardScoreOfCp cp, turn⟩,
          Option.none, Option.none, Option.none,
          some (pvLoop push hasPV [] [] pvToks)⟩) ∧
    (∀ (d cp t n sd np tb : Int) (reserved : List Int) (pvToks : List String)
        (turn : Bool) push (hasPV : Bool),
      parsePostInts (d :: cp :: t :: n :: sd :: np :: (reserved ++ [tb]))
          pvToks turn push hasPV =
        ⟨some d, some ((t : ℚ) / 100), some n, some ⟨xboardScoreOfCp cp, turn⟩,
          some sd, some np, some tb, some (pvLoop push hasPV [] [] pvToks)⟩) ∧
    (∀ turn : Bool,
      parseXboardPost "10 -15 123 45678 7 365000 0 h2e2 h9g7" turn demoPush true =
        ⟨some 10, some (((123 : Int) : ℚ) / 100), some 45678,
          some ⟨.Cp (-15), turn⟩, some 7, some 365000, some 0,
          some ["h2e2", "h9g7"]⟩) := by
  refine ⟨?_, ?_, ?_, ?_⟩
  · intro cp
    refine ⟨fun h => by simp [xboardScoreOfCp, h], fun h => ?_, fun h => ?_, fun h1 h2 => ?_⟩
    · simp [xboardScoreOfCp, h]
    · have h1 : ¬ cp ≤ -100000 := by omega
      have h2 : ¬ cp = 100000 := by omega
      simp [xboardScoreOfCp, h1, h2, le_of_lt h]
    · have h3 : ¬ cp ≤ -100000 := by omega
      have h4 : ¬ cp = 100000 := by omega
      have h5 : ¬ 100000 ≤ cp := by omega
      simp [xboardScoreOfCp, h3, h4, h5]
  · intro d cp t n pvToks turn push hasPV
    rfl
  · intro d cp t n sd np tb reserved pvToks turn push hasPV
    simp [parsePostInts, popWhileGT1_append_singleton]
  · intro turn
    rfl

/-- Witness for C3: the score mapping applied at concrete centipawn
values from each regime. -/
theorem C3_xboard_post_witness :
    xboardScoreOfCp (-100005) = .Mate (-5) ∧ xboardScoreOfCp 100000 = .MateGiven ∧
    xboardScoreOfCp 100003 = .Mate 3 ∧ xboardScoreOfCp (-15) = .Cp (-15) := by
  refine ⟨?_, ?_, ?_, ?_⟩
  · have h := ((C3_xboard_post.1 (-100005)).1) (by decide)
    simp only [show (-100005 : Int) + 100000 = -5 from by decide] at h
    exact h
  · exact ((C3_xboard_post.1 100000).2.1) rfl
  · have h := ((C3_xboard_post.1 100003).2.2.1) (by decide)
    simpa using h
  · have h := ((C3_xboard_post.1 (-15)).2.2.2) (by decide) (by decide)
    simpa using h

/-! ## XBoard initialization (`XBoardInitializeCommand.end`)

`self.features : Dict[str, Union[int, str]]` — `feature k=v` values are
stored as ints when `int(v)` succeeds, else as strings. `end()` is
reached when `feature done=1` arrives or when the 2-second timer fires;
it fails the command unless the mandatory `ping` and `setboard`
features were declared truthy, then emits the `rejected`/`accepted`
lines, extends the option table (`memory`, `cores`, `egtpath <name>`)
and populates `config`/`target_config` from option defaults. The
`myname`→id bookkeeping has no bearing on any emitted line or the
result and is not tracked. -/

/-- A stored feature value: `int` or `str`. -/
inductive FeatVal
  | int (n : Int)
  | str (s : String)
  deriving DecidableEq, Repr

/-- Python truthiness of a feature value. -/
def FeatVal.truthy : FeatVal → Bool
  | .int n => n ≠ 0
  | .str s => s ≠ ""

/-- `str(value)` of a feature value. -/
def FeatVal.toStr : FeatVal → String
  | .int n => toString n
  | .str s => s

/-- `self.features.get(key, default)`. -/
def featGet (fs : List (String × FeatVal)) (k : String) (d : FeatVal) : FeatVal :=
  (fs.lookup k).getD d

/-- Helper for `splitComma`. -/
def splitCommaAux : List Char → List Char → List String
  | [], acc => [String.mk acc.reverse]
  | c :: cs, acc =>
      if c = ',' then String.mk acc.reverse :: splitCommaAux cs []
      else splitCommaAux cs (c :: acc)

/-- Python `s.split(",")` (keeps empty pieces). -/
def splitComma (s : String) : List String := splitCommaAux s.toList []

/-- `XBoardInitializeCommand.end()`. On success returns the lines sent,
the updated option table and the populated `config` and
`target_config`. -/
def xbInitEnd (features : List (String × FeatVal))
    (options : List (String × EngineOption)) :
    Except PyErr
      (List String × List (String × EngineOption) ×
        List (String × PyValue) × List (String × PyValue)) :=
  if ¬(featGet features "ping" (.int 0)).truthy then
    .error (.engineError "xboard engine did not declare required feature: ping")
  else if ¬(featGet features "setboard" (.int 0)).truthy then
    .error (.engineError "xboard engine did not declare required feature: setboard")
  else
    let sent : List String := []
    let sent := if ¬(featGet features "reuse" (.int 1)).truthy
      then sent ++ ["rejected reuse"] else sent
    let sent := if ¬(featGet features "sigterm" (.int 1)).truthy
      then sent ++ ["rejected sigterm"] else sent
    let sent := if (featGet features "san" (.int 0)).truthy
      then sent ++ ["rejected san"] else sent
    let opts := options
    let memOn := (featGet features "memory" (.int 0)).truthy
    let opts := if memOn then
        assocSet opts "memory"
          ⟨"memory", "spin", .int 16, some 1, Option.none, Option.none⟩
      else opts
    let sent := if memOn then sent ++ ["accepted memory"] else sent
    let smpOn := (featGet features "smp" (.int 0)).truthy
    let opts := if smpOn then
        assocSet opts "cores"
          ⟨"cores", "spin", .int 1, some 1, Option.none, Option.none⟩
      else opts
    let sent := if smpOn then sent ++ ["accepted smp"] else sent
    let egtOn := ((features.lookup "egt").elim false FeatVal.truthy)
    let opts := if egtOn then
        (splitComma ((features.lookup "egt").getD (.str "")).toStr).foldl
          (fun o egt =>
            assocSet o ("egtpath " ++ egt)
              ⟨"egtpath " ++ egt, "path", .none, Option.none, Option.none, Option.none⟩)
          opts
      else opts
    let sent := if egtOn then sent ++ ["accepted egt"] else sent
    let config := opts.foldl
      (fun c kv => if kv.2.default ≠ .none then assocSet c kv.2.name kv.2.default else c)
      []
    let target := opts.foldl
      (fun c kv =>
        if kv.2.default ≠ .none ∧ kv.2.is_managed = false then
          assocSet c kv.2.name kv.2.default
        else c)
      []
    .ok (sent, opts, config, target)

/-- C6: `end()` fails with an `EngineError` naming the missing feature
whenever `ping` (first) or `setboard` was not declared truthy, and the
initialization completes successfully iff both were. -/
theorem C6_xboard_init_mandatory_features (features : List (String × FeatVal))
    (options : List (String × EngineOption)) :
    ((∃ r, xbInitEnd features options = .ok r) ↔
      ((featGet features "ping" (.int 0)).truthy = true ∧
        (featGet features "setboard" (.int 0)).truthy = true)) ∧
    ((featGet features "ping" (.int 0)).truthy = false →
      xbInitEnd features options =
        .error (.engineError "xboard engine did not declare required feature: ping")) ∧
    ((featGet features "ping" (.int 0)).truthy = true →
      (featGet features "setboard" (.int 0)).truthy = false →
      xbInitEnd features options =
        .error (.engineError "xboard engine did not declare required feature: setboard")) := by
  refine ⟨⟨fun ⟨r, hr⟩ => ?_, fun ⟨h1, h2⟩ => ?_⟩, fun h1 => ?_, fun h1 h2 => ?_⟩
  · by_cases h1 : (featGet features "ping" (.int 0)).truthy = true
    · by_cases h2 : (featGet features "setboard" (.int 0)).truthy = true
      · exact ⟨h1, h2⟩
      · rw [xbInitEnd, if_neg (by simp [h1]), if_pos (by simp_all)] at hr
        cases hr
    · rw [xbInitEnd, if_pos (by simp_all)] at hr
      cases hr
  · exact ⟨_, by rw [xbInitEnd, if_neg (by simp [h1]), if_neg (by simp [h2])]⟩
  · rw [xbInitEnd, if_pos (by simp [h1])]
  · rw [xbInitEnd, if_neg (by simp [h1]), if_pos (by simp [h2])]

/-- Witness for C6: a feature stream declaring only `ping=1` fails with
the `setboard` error; `ping=1 setboard=1` succeeds. -/
theorem C6_xboard_init_witness :
    xbInitEnd [("ping", .int 1)] [] =
      .error (.engineError "xboard engine did not declare required feature: setboard") ∧
    (∃ r, xbInitEnd [("ping", .int 1), ("setboard", .int 1)] [] = .ok r) := by
  constructor
  · exact (C6_xboard_init_mandatory_features [("ping", .int 1)] []).2.2
      (by decide) (by decide)
  · exact ((C6_xboard_init_mandatory_features
      [("ping", .int 1), ("setboard", .int 1)] []).1).mpr ⟨by decide, by decide⟩

/-! ## XBoard `send_game_result` (`XBoardGameResultCommand.start`)

The `Board` collaborator is external: `board.outcome(claim_draw=True)`
is modelled as an optional record carrying the winner, the
`outcome.result()` string and the `Termination` member name. Colors are
booleans with red = `true` (as in the code, where `RED` is truthy).
`engine._new(...)` re-synchronizes the position first; the claim is
about the `result …` line, which is what this start model returns. -/

/-- `board.outcome(claim_draw=True)`, when not `None`. -/
structure Outcome where
  winner : Option Bool
  result : String
  termination : String
  deriving DecidableEq, Repr

/-- The part of the `Board` collaborator that `start()` reads. -/
structure GRBoard where
  outcome : Option Outcome
  deriving DecidableEq, Repr

/-- Python `s.capitalize()`. -/
def pyCapitalize (s : String) : String :=
  match s.toList with
  | [] => ""
  | c :: cs => String.mk (c.toUpper :: cs.map Char.toLower)

/-- `s.replace("_", " ")`. -/
def underscoreToSpace (s : String) : String :=
  String.mk (s.toList.map fun c => if c = '_' then ' ' else c)

/-- `any(c in game_ending for c in "\x7b\x7d\n\r")`. -/
def containsBad (s : String) : Bool :=
  s.toList.any fun c => c = '\x7b' ∨ c = '\x7d' ∨ c = '\n' ∨ c = '\x0d'

/-- Python `s.strip()`. -/
def pyStrip (s : String) : String :=
  String.mk
    (((s.toList.dropWhile Char.isWhitespace).reverse.dropWhile Char.isWhitespace).reverse)

/-- Python truthiness of the optional `game_ending` string. -/
def truthyStrOpt : Option String → Bool
  | some s => s ≠ ""
  | Option.none => false

/-- The `(result, ending)` selection of `start()`: incomplete games are
`*`; an explicit winner or a truthy `game_ending` selects
`1-0`/`0-1`/`1/2-1/2` by comparing the winner with RED and BLACK
(`None` compares unequal to both, giving `1/2-1/2`); else the board's
outcome decides; else `*`. -/
def resultEndingPair (outcome : Option Outcome) (winner : Option Bool)
    (game_ending : Option String) (game_complete : Bool) : String × String :=
  if ¬game_complete then ("*", game_ending.getD "")
  else if winner.isSome || truthyStrOpt game_ending then
    ((if winner = some true then "1-0"
      else if winner = some false then "0-1"
      else "1/2-1/2"), game_ending.getD "")
  else
    match outcome with
    | some oc =>
        match oc.winner with
        | some w =>
            (oc.result,
              (if w then "Red" else "Black") ++ " " ++
                (if oc.termination = "CHECKMATE" then "mates" else "variant win"))
        | Option.none => (oc.result, underscoreToSpace (pyCapitalize oc.termination))
    | Option.none => ("*", "")

/-- The final two lines of `start()`: wrap a nonempty ending in braces
and emit `f"result {result} {ending_text}".strip()`. -/
def emitResultLine (result ending : String) : String :=
  let ending_text := if ending ≠ "" then "\x7b" ++ ending ++ "\x7d" else ""
  pyStrip ("result " ++ result ++ " " ++ ending_text)

/-- `XBoardGameResultCommand.start()`, returning the emitted
`result …` line (or the `EngineError` for an invalid ending text). -/
def gameResultStart (board : GRBoard) (winner : Option Bool)
    (game_ending : Option String) (game_complete : Bool) : Except PyErr String :=
  if truthyStrOpt game_ending && containsBad (game_ending.getD "") then
    .error (.engineError "invalid line break or curly braces in game ending message")
  else
    let p := resultEndingPair board.outcome winner game_ending game_complete
    .ok (emitResultLine p.1 p.2)

theorem dropWhile_eq_self_of_head (p : Char → Bool) (l : List Char)
    (h : ∀ c, l.head? = some c → p c = false) : l.dropWhile p = l := by
  cases l with
  | nil => rfl
  | cons a as => simp [List.dropWhile_cons, h a rfl]

theorem pyStrip_eq_self (s : String)
    (h1 : ∀ c, s.toList.head? = some c → c.isWhitespace = false)
    (h2 : ∀ c, s.toList.getLast? = some c → c.isWhitespace = false) :
    pyStrip s = s := by
  unfold pyStrip
  rw [dropWhile_eq_self_of_head _ _ h1]
  rw [dropWhile_eq_self_of_head _ _ (by simpa [List.head?_reverse] using h2)]
  rw [List.reverse_reverse]
  rcases s with ⟨data⟩
  rfl

theorem append_ne_empty_left (a b : String) (h : a.toList ≠ []) : a ++ b ≠ "" := by
  intro he
  apply h
  have h2 := congrArg String.toList he
  rw [show (a ++ b).toList = a.toList ++ b.toList from rfl] at h2
  exact (List.append_eq_nil.mp h2).1

theorem getLast?_ends_brace (a b : String) :
    (a ++ (b ++ "\x7d")).toList.getLast? = some '\x7d' := by
  show (a.toList ++ (b.toList ++ ['\x7d'])).getLast? = some '\x7d'
  rw [← List.append_assoc]
  exact List.getLast?_concat _

/-- With a nonempty ending, `strip()` is the identity (the line starts
with `r` and ends with the closing brace) and the emitted line is
`result <result> \x7b<ending>\x7d`. -/
theorem emitResultLine_ne (r e : String) (he : e ≠ "") :
    emitResultLine r e = "result " ++ r ++ " " ++ ("\x7b" ++ e ++ "\x7d") := by
  unfold emitResultLine
  rw [if_pos he]
  apply pyStrip_eq_self
  · intro c hc
    have h : ("result " ++ r ++ " " ++ ("\x7b" ++ e ++ "\x7d")).toList.head? = some 'r' := rfl
    rw [h, Option.some.injEq] at hc
    subst hc
    decide
  · intro c hc
    rw [getLast?_ends_brace ("result " ++ r ++ " ") ("\x7b" ++ e), Option.some.injEq] at hc
    subst hc
    decide

/-- C7 (counterexample): with `game_complete=True`, no explicit winner,
a `game_ending` text, and a board with no outcome, the code emits
`result 1/2-1/2 \x7bAdjudication\x7d` — not `result *` as the claim's
winner-derivation rule (explicit winner, else board outcome, else `*`)
requires. -/
theorem C7_game_result_counterexample :
    gameResultStart ⟨Option.none⟩ Option.none (some "Adjudication") true =
      .ok "result 1/2-1/2 \x7bAdjudication\x7d" ∧
    ("result 1/2-1/2 \x7bAdjudication\x7d" : String) ≠
      "result * \x7bAdjudication\x7d" := by
  constructor
  · rfl
  · decide

/-- C7 (amended): for `game_complete=True` and a valid ending text, the
emitted line is `result <winner> \x7b<ending>\x7d` (braces omitted when
the ending is empty), where `<winner>` is `1-0`/`0-1` from the explicit
winner when given, else `1/2-1/2` whenever a nonempty `game_ending` is
given (regardless of the board), else derived from the board's outcome,
else `*`; an ending text containing braces or line breaks raises an
`EngineError` instead. -/
theorem C7_game_result_amended :
    (∀ (b : GRBoard) (w : Bool),
      gameResultStart b (some w) Option.none true =
        .ok ("result " ++ (if w then "1-0" else "0-1"))) ∧
    (∀ (b : GRBoard) (w : Bool) (s : String), s ≠ "" → containsBad s = false →
      gameResultStart b (some w) (some s) true =
        .ok ("result " ++ (if w then "1-0" else "0-1") ++ " " ++
          ("\x7b" ++ s ++ "\x7d"))) ∧
    (∀ (b : GRBoard) (s : String), s ≠ "" → containsBad s = false →
      gameResultStart b Option.none (some s) true =
        .ok ("result " ++ "1/2-1/2" ++ " " ++ ("\x7b" ++ s ++ "\x7d"))) ∧
    (∀ b : GRBoard, b.outcome = Option.none →
      gameResultStart b Option.none Option.none true = .ok "result *") ∧
    (∀ (b : GRBoard) (oc : Outcome) (w : Bool), b.outcome = some oc →
      oc.winner = some w →
      gameResultStart b Option.none Option.none true =
        .ok ("result " ++ oc.result ++ " " ++
          ("\x7b" ++ ((if w then "Red" else "Black") ++ " " ++
            (if oc.termination = "CHECKMATE" then "mates" else "variant win")) ++
              "\x7d"))) ∧
    (∀ (b : GRBoard) (oc : Outcome), b.outcome = some oc →
      oc.winner = Option.none → underscoreToSpace (pyCapitalize oc.termination) ≠ "" →
      gameResultStart b Option.none Option.none true =
        .ok ("result " ++ oc.result ++ " " ++
          ("\x7b" ++ underscoreToSpace (pyCapitalize oc.termination) ++ "\x7d"))) ∧
    (∀ (b : GRBoard) (w : Option Bool) (s : String) (gc : Bool),
      s ≠ "" → containsBad s = true →
      gameResultStart b w (some s) gc =
        .error (.engineError "invalid line break or curly braces in game ending message")) := by
  have hpair2 : ∀ (oc : Option Outcome) (w : Bool) (s : String), s ≠ "" →
      resultEndingPair oc (some w) (some s) true =
        ((if w then "1-0" else "0-1"), s) := by
    intro oc w s hs
    cases w <;> simp [resultEndingPair, truthyStrOpt, hs]
  refine ⟨?_, ?_, ?_, ?_, ?_, ?_, ?_⟩
  · intro b w
    cases w <;> rfl
  · intro b w s hs hbad
    unfold gameResultStart
    rw [if_neg (by simp [truthyStrOpt, hbad])]
    rw [hpair2 b.outcome w s hs]
    dsimp only
    rw [emitResultLine_ne _ _ hs]
  · intro b s hs hbad
    unfold gameResultStart
    rw [if_neg (by simp [truthyStrOpt, hbad])]
    have hp : resultEndingPair b.outcome Option.none (some s) true = ("1/2-1/2", s) := by
      simp [resultEndingPair, truthyStrOpt, hs]
    rw [hp]
    dsimp only
    rw [emitResultLine_ne _ _ hs]
  · intro b hb
    unfold gameResultStart
    have hp : resultEndingPair b.outcome Option.none Option.none true = ("*", "") := by
      simp [resultEndingPair, truthyStrOpt, hb]
    rw [if_neg (by simp [truthyStrOpt]), hp]
    rfl
  · intro b oc w hb hw
    unfold gameResultStart
    have hp : resultEndingPair b.outcome Option.none Option.none true =
        (oc.result, (if w then "Red" else "Black") ++ " " ++
          (if oc.termination = "CHECKMATE" then "mates" else "variant win")) := by
      simp [resultEndingPair, truthyStrOpt, hb, hw]
    rw [if_neg (by simp [truthyStrOpt]), hp]
    dsimp only
    rw [emitResultLine_ne _ _
      (by cases w <;> exact append_ne_empty_left _ _ (by decide))]
  · intro b oc hb hw hterm
    unfold gameResultStart
    have hp : resultEndingPair b.outcome Option.none Option.none true =
        (oc.result, underscoreToSpace (pyCapitalize oc.termination)) := by
      simp [resultEndingPair, truthyStrOpt, hb, hw]
    rw [if_neg (by simp [truthyStrOpt]), hp]
    dsimp only
    rw [emitResultLine_ne _ _ hterm]
  · intro b w s gc hs hbad
    unfold gameResultStart
    rw [if_pos (by simp [truthyStrOpt, hs, hbad])]

/-- Witness for C7: the amended rule applied at concrete inputs. -/
theorem C7_game_result_witness :
    gameResultStart ⟨Option.none⟩ Option.none (some "Time forfeiture") true =
      .ok "result 1/2-1/2 \x7bTime forfeiture\x7d" ∧
    gameResultStart ⟨some ⟨some true, "1-0", "CHECKMATE"⟩⟩ Option.none Option.none true =
      .ok "result 1-0 \x7bRed mates\x7d" := by
  constructor
  · rw [C7_game_result_amended.2.2.1 ⟨Option.none⟩ "Time forfeiture"
      (by decide) (by decide)]
    rfl
  · rw [C7_game_result_amended.2.2.2.2.1 ⟨some ⟨some true, "1-0", "CHECKMATE"⟩⟩
      ⟨some true, "1-0", "CHECKMATE"⟩ true rfl rfl]
    rfl

end CChess
